import Mathlib

/-!
Shallow embedding of the embqtt wire-format codec core
(`src/error.rs`, `src/packet/data_representation.rs`, `src/packet/fixed_header.rs`).

Bytes are modelled as `Nat` (a channel delivers `u8` values, i.e. naturals below
256; the bit-level operations `&&&` of the source become `Nat.land`, which agrees
with the `u8` operations on such values). `u16`/`u32` values are `Nat`s below the
corresponding power of two; no arithmetic in this core can overflow `u32`
(the variable-byte-integer accumulator stays below 2^28 and the multiplier
below 2^29), so plain `Nat` arithmetic is faithful.

A read channel (`embedded_io_async::Read` with `read_exact`) is a `Reader`:
the list of bytes it will deliver, followed by either a clean end of data
(`err = none`, `read_exact` past the end reports `UnexpectedEof`) or a
transport failure (`err = some e`, `read_exact` reports `Other e`).

A write channel (`embedded_io_async::Write` with `write_all`) is an abstract
`WriteChannel`: a state type `σ` and a `write_all` operation that either
accepts the bytes (new state) or fails with the channel's native error `ε`.
`listWriter` is the always-succeeding channel that accumulates written bytes
in a list, used to observe what the writers emit.
-/

deriving instance DecidableEq for Except

/-- `embedded_io_async::ReadExactError<E>` as used by `error.rs`. -/
inductive ReadExactError (ε : Type) where
  | UnexpectedEof : ReadExactError ε
  | Other : ε → ReadExactError ε
deriving DecidableEq

/-- `Error<E>` from `src/error.rs`. -/
inductive Error (ε : Type) where
  | MalformedPacketError : Error ε
  | NetworkError : ε → Error ε
deriving DecidableEq

/-- `impl<E> From<ReadExactError<E>> for Error<E>` from `src/error.rs`:
end-of-data mid-read becomes `MalformedPacketError`, any other channel
failure becomes `NetworkError` carrying the native error. -/
def Error.ofReadExactError : ReadExactError ε → Error ε
  | ReadExactError.UnexpectedEof => Error.MalformedPacketError
  | ReadExactError.Other e => Error.NetworkError e

/-- A read channel: the bytes it will deliver, then end-of-data (`none`)
or a transport failure (`some e`). -/
structure Reader (ε : Type) where
  bytes : List Nat
  err : Option ε
deriving DecidableEq

/-- What `read_exact` reports when the channel has run out of deliverable
bytes: `UnexpectedEof` on clean end of data, `Other e` on transport failure. -/
def Reader.endError (err : Option ε) : ReadExactError ε :=
  match err with
  | none => ReadExactError.UnexpectedEof
  | some e => ReadExactError.Other e

/-- `read_u8` from `data_representation.rs`: `read_exact` of one byte. -/
def read_u8 (r : Reader ε) : Except (Error ε) (Nat × Reader ε) :=
  match r.bytes with
  | b :: rest => Except.ok (b, ⟨rest, r.err⟩)
  | [] => Except.error (Error.ofReadExactError (Reader.endError r.err))

/-- `read_u16`: `read_exact` of two bytes, assembled big-endian
(`u16::from_be_bytes`). -/
def read_u16 (r : Reader ε) : Except (Error ε) (Nat × Reader ε) :=
  match r.bytes with
  | b0 :: b1 :: rest => Except.ok (b0 * 256 + b1, ⟨rest, r.err⟩)
  | _ => Except.error (Error.ofReadExactError (Reader.endError r.err))

/-- `read_u32`: `read_exact` of four bytes, assembled big-endian
(`u32::from_be_bytes`). -/
def read_u32 (r : Reader ε) : Except (Error ε) (Nat × Reader ε) :=
  match r.bytes with
  | b0 :: b1 :: b2 :: b3 :: rest =>
      Except.ok (((b0 * 256 + b1) * 256 + b2) * 256 + b3, ⟨rest, r.err⟩)
  | _ => Except.error (Error.ofReadExactError (Reader.endError r.err))

/-- The loop of `read_variable_byte_integer`: reads one byte per iteration,
accumulates `value += (byte & 0x7F) * multiplier`, stops on a clear
continuation bit, and rejects a multiplier beyond `128^3` (a 5th byte)
with `MalformedPacketError` before reading further. -/
def read_vbi_loop (multiplier value : Nat) :
    List Nat → Option ε → Except (Error ε) (Nat × Reader ε)
  | [], err => Except.error (Error.ofReadExactError (Reader.endError err))
  | encoded_byte :: rest, err =>
      let value := value + Nat.land encoded_byte 127 * multiplier
      if Nat.land encoded_byte 128 = 0 then
        Except.ok (value, ⟨rest, err⟩)
      else
        let multiplier := multiplier * 128
        if 128 * 128 * 128 < multiplier then
          Except.error Error.MalformedPacketError
        else
          read_vbi_loop multiplier value rest err

/-- `read_variable_byte_integer` from `data_representation.rs`:
the loop started with `multiplier = 1`, `value = 0`. -/
def read_variable_byte_integer (r : Reader ε) : Except (Error ε) (Nat × Reader ε) :=
  read_vbi_loop 1 0 r.bytes r.err

/-- A write channel: a state and a `write_all` that either accepts the bytes
or fails with the channel's native error. -/
structure WriteChannel (σ ε : Type) where
  write_all : List Nat → σ → Except ε σ

/-- The channel that records all written bytes in a list and never fails. -/
def listWriter (ε : Type) : WriteChannel (List Nat) ε :=
  ⟨fun bs s => Except.ok (s ++ bs)⟩

/-- `write_u8`: `write_all(&[num])`, mapping a channel failure to
`NetworkError`. -/
def write_u8 (num : Nat) (ch : WriteChannel σ ε) (s : σ) : Except (Error ε) σ :=
  match ch.write_all [num] s with
  | Except.ok s' => Except.ok s'
  | Except.error e => Except.error (Error.NetworkError e)

/-- `write_u16`: `write_all` of the two big-endian bytes of `num`. -/
def write_u16 (num : Nat) (ch : WriteChannel σ ε) (s : σ) : Except (Error ε) σ :=
  match ch.write_all [num / 256 % 256, num % 256] s with
  | Except.ok s' => Except.ok s'
  | Except.error e => Except.error (Error.NetworkError e)

/-- `write_u32`: `write_all` of the four big-endian bytes of `num`. -/
def write_u32 (num : Nat) (ch : WriteChannel σ ε) (s : σ) : Except (Error ε) σ :=
  match ch.write_all
      [num / 16777216 % 256, num / 65536 % 256, num / 256 % 256, num % 256] s with
  | Except.ok s' => Except.ok s'
  | Except.error e => Except.error (Error.NetworkError e)

/-- `write_variable_byte_integer` from `data_representation.rs`: each
iteration takes `num % 128` as the next byte, divides `num` by 128, sets the
continuation bit (adds 128: the digit is below 128, so `|= 0x80` is `+ 128`)
when more digits remain, writes the byte, and stops once `num` reaches 0. -/
def write_variable_byte_integer (num : Nat) (ch : WriteChannel σ ε) (s : σ) :
    Except (Error ε) σ :=
  let encoded_byte := num % 128
  let num' := num / 128
  let encoded_byte := if 0 < num' then encoded_byte + 128 else encoded_byte
  match ch.write_all [encoded_byte] s with
  | Except.error e => Except.error (Error.NetworkError e)
  | Except.ok s' =>
      if _h : num' = 0 then Except.ok s'
      else write_variable_byte_integer num' ch s'
termination_by num
decreasing_by
  exact Nat.div_lt_self (Nat.pos_of_ne_zero (by omega)) (by omega)

/-- The byte list `write_variable_byte_integer` emits (the same recursion,
with the channel specialised away): minimal base-128 digits, least
significant first, continuation bit on every byte but the last. -/
def encodeVBI (num : Nat) : List Nat :=
  if h : num / 128 = 0 then [num % 128]
  else (num % 128 + 128) :: encodeVBI (num / 128)
termination_by num
decreasing_by
  exact Nat.div_lt_self (Nat.pos_of_ne_zero (by omega)) (by omega)

/-- `PacketType` from `fixed_header.rs`: the 16 MQTT control packet types. -/
inductive PacketType where
  | Reserved | Connect | ConnAck | Publish
  | PubAck | PubRec | PubRel | PubComp
  | Subscribe | SubAck | Unsubscribe | UnsubAck
  | PingReq | PingResp | Disconnect | Auth
deriving DecidableEq

/-- `PacketType::to_bits`: the raw 4-bit value of the type. -/
def PacketType.to_bits : PacketType → Nat
  | PacketType.Reserved => 0
  | PacketType.Connect => 1
  | PacketType.ConnAck => 2
  | PacketType.Publish => 3
  | PacketType.PubAck => 4
  | PacketType.PubRec => 5
  | PacketType.PubRel => 6
  | PacketType.PubComp => 7
  | PacketType.Subscribe => 8
  | PacketType.SubAck => 9
  | PacketType.Unsubscribe => 10
  | PacketType.UnsubAck => 11
  | PacketType.PingReq => 12
  | PacketType.PingResp => 13
  | PacketType.Disconnect => 14
  | PacketType.Auth => 15

/-- `PacketType::from_bits`: masks to the low nibble and matches the 16
code points. The source's final `unreachable!` arm cannot fire because the
masked value is below 16; it is mapped to `Reserved` here, provably dead. -/
def PacketType.from_bits (bits : Nat) : PacketType :=
  match Nat.land bits 15 with
  | 0 => PacketType.Reserved
  | 1 => PacketType.Connect
  | 2 => PacketType.ConnAck
  | 3 => PacketType.Publish
  | 4 => PacketType.PubAck
  | 5 => PacketType.PubRec
  | 6 => PacketType.PubRel
  | 7 => PacketType.PubComp
  | 8 => PacketType.Subscribe
  | 9 => PacketType.SubAck
  | 10 => PacketType.Unsubscribe
  | 11 => PacketType.UnsubAck
  | 12 => PacketType.PingReq
  | 13 => PacketType.PingResp
  | 14 => PacketType.Disconnect
  | 15 => PacketType.Auth
  | _ => PacketType.Reserved

/-- `FixedHeader` from `fixed_header.rs`. -/
structure FixedHeader where
  type_ : PacketType
  flags : Nat
  remaining_length : Nat
deriving DecidableEq

/-- `FixedHeader::read`: one control byte via `read_u8` (upper nibble is the
packet type, lower nibble the flags), then the remaining length via
`read_variable_byte_integer`; failures of both propagate unchanged. -/
def FixedHeader.read (r : Reader ε) : Except (Error ε) (FixedHeader × Reader ε) :=
  match read_u8 r with
  | Except.error e => Except.error e
  | Except.ok (control_byte, r₁) =>
      let type_ := PacketType.from_bits (Nat.shiftRight control_byte 4)
      let flags := Nat.land control_byte 15
      match read_variable_byte_integer r₁ with
      | Except.error e => Except.error e
      | Except.ok (remaining_length, r₂) =>
          Except.ok (⟨type_, flags, remaining_length⟩, r₂)

/-- `FixedHeader::write`: the control byte `(to_bits << 4) | (flags & 0x0F)`
via `write_u8`, then the remaining length via `write_variable_byte_integer`;
failures of both propagate unchanged. -/
def FixedHeader.write (h : FixedHeader) (ch : WriteChannel σ ε) (s : σ) :
    Except (Error ε) σ :=
  let control_byte := Nat.lor (Nat.shiftLeft h.type_.to_bits 4) (Nat.land h.flags 15)
  match write_u8 control_byte ch s with
  | Except.error e => Except.error e
  | Except.ok s' => write_variable_byte_integer h.remaining_length ch s'

/-- Modelled from the spec for comparison with `write_variable_byte_integer`:
the minimal base-128 digit sequence of a value, least-significant digit
first. -/
def base128Digits (v : Nat) : List Nat :=
  if _h : v < 128 then [v]
  else v % 128 :: base128Digits (v / 128)
termination_by v
decreasing_by
  exact Nat.div_lt_self (by omega) (by omega)

/-- Modelled from the spec: set the continuation bit (add 128) on every
byte except the last. -/
def withContinuationBits : List Nat → List Nat
  | [] => []
  | [d] => [d]
  | d :: d' :: ds => (d + 128) :: withContinuationBits (d' :: ds)

/-- Modelled from the spec: the wire encoding the spec describes for a
variable byte integer — minimal base-128 digits, least significant first,
continuation bit on every byte except the last. -/
def specVbiEncoding (v : Nat) : List Nat :=
  withContinuationBits (base128Digits v)

/- ### Bit-level helper facts (bounded, decided by enumeration) -/

theorem land127_lt : ∀ b < 128, Nat.land b 127 = b := by decide

theorem land128_lt : ∀ b < 128, Nat.land b 128 = 0 := by decide

theorem land127_add : ∀ d < 128, Nat.land (d + 128) 127 = d := by decide

theorem land128_add : ∀ d < 128, Nat.land (d + 128) 128 = 128 := by decide

theorem land15_small : ∀ m < 16, Nat.land m 15 = m := by decide

/- ### Shape of `encodeVBI` -/

theorem encodeVBI_of_lt {n : Nat} (h : n < 128) : encodeVBI n = [n] := by
  rw [encodeVBI]
  simp [Nat.div_eq_of_lt h, Nat.mod_eq_of_lt h]

theorem encodeVBI_of_ge {n : Nat} (h : 128 ≤ n) :
    encodeVBI n = (n % 128 + 128) :: encodeVBI (n / 128) := by
  rw [encodeVBI]
  have hne : ¬ n / 128 = 0 := by omega
  simp [hne]

/- ### The writer over the list channel emits `encodeVBI` -/

theorem write_vbi_listWriter (ε : Type) (num : Nat) :
    ∀ s : List Nat,
      write_variable_byte_integer num (listWriter ε) s = Except.ok (s ++ encodeVBI num) := by
  induction num using Nat.strong_induction_on with
  | _ n ih =>
    intro s
    rw [write_variable_byte_integer, encodeVBI]
    by_cases h : n / 128 = 0
    · simp [h, listWriter]
    · have hdiv : n / 128 < n := Nat.div_lt_self (by omega) (by omega)
      have hih := ih (n / 128) hdiv (s ++ [n % 128 + 128])
      simp only [listWriter] at hih ⊢
      simp [h, Nat.pos_of_ne_zero h, hih]

/- ### Decoding an encoded value (core of the round-trip law) -/

theorem read_vbi_loop_encode {ε : Type} :
    ∀ n j v (rest : List Nat) (err : Option ε), j ≤ 3 → n < 128 ^ (4 - j) →
      read_vbi_loop (128 ^ j) v (encodeVBI n ++ rest) err =
        Except.ok (v + n * 128 ^ j, ⟨rest, err⟩) := by
  intro n
  induction n using Nat.strong_induction_on with
  | _ n ih =>
    intro j v rest err hj hn
    by_cases h : n < 128
    · rw [encodeVBI_of_lt h]
      simp [read_vbi_loop, land127_lt n h, land128_lt n h]
    · push_neg at h
      rw [encodeVBI_of_ge h]
      have hd : n % 128 < 128 := Nat.mod_lt _ (by omega)
      have hj2 : j ≤ 2 := by
        by_contra hc
        have hj3 : j = 3 := by omega
        subst hj3
        simp at hn
        omega
      have hdivlt : n / 128 < 128 ^ (4 - (j + 1)) := by
        have h4 : 4 - j = (4 - (j + 1)) + 1 := by omega
        rw [h4, pow_succ] at hn
        exact Nat.div_lt_of_lt_mul (by omega)
      have hrec := ih (n / 128) (Nat.div_lt_self (by omega) (by omega)) (j + 1)
        (v + n % 128 * 128 ^ j) rest err (by omega) hdivlt
      rw [pow_succ] at hrec
      have hno : ¬ 128 * 128 * 128 < 128 ^ j * 128 := by
        have : (128 : Nat) ^ j ≤ 128 ^ 2 := Nat.pow_le_pow_right (by norm_num) hj2
        norm_num at this ⊢
        omega
      have harith : v + n % 128 * 128 ^ j + n / 128 * (128 ^ j * 128) = v + n * 128 ^ j := by
        conv_rhs => rw [← Nat.mod_add_div n 128]
        ring
      rw [harith] at hrec
      simp [read_vbi_loop, land127_add _ hd, land128_add _ hd, hno, hrec]

/- ### Four continuation bytes exhaust the multiplier budget -/

theorem read_vbi_loop_four_cont {ε : Type} (b0 b1 b2 b3 : Nat) (rest : List Nat)
    (err : Option ε)
    (h0 : Nat.land b0 128 ≠ 0) (h1 : Nat.land b1 128 ≠ 0)
    (h2 : Nat.land b2 128 ≠ 0) (h3 : Nat.land b3 128 ≠ 0) :
    read_variable_byte_integer (⟨b0 :: b1 :: b2 :: b3 :: rest, err⟩ : Reader ε) =
      Except.error Error.MalformedPacketError := by
  norm_num [read_variable_byte_integer, read_vbi_loop, h0, h1, h2, h3]

/- ### Length of the emitted encoding -/

theorem encodeVBI_length_le : ∀ k n : Nat, n < 128 ^ (k + 1) → (encodeVBI n).length ≤ k + 1 := by
  intro k
  induction k with
  | zero =>
    intro n hn
    rw [encodeVBI_of_lt (by simpa using hn)]
    simp
  | succ k ih =>
    intro n hn
    by_cases h : n < 128
    · rw [encodeVBI_of_lt h]
      simp
    · rw [encodeVBI_of_ge (by omega)]
      have hdiv : n / 128 < 128 ^ (k + 1) := by
        rw [pow_succ] at hn
        exact Nat.div_lt_of_lt_mul (by omega)
      have := ih (n / 128) hdiv
      simp
      omega

theorem encodeVBI_ne_nil (n : Nat) : encodeVBI n ≠ [] := by
  by_cases h : n < 128
  · rw [encodeVBI_of_lt h]
    simp
  · rw [encodeVBI_of_ge (by omega)]
    simp

theorem encodeVBI_length_ge : ∀ k n : Nat, 128 ^ k ≤ n → k + 1 ≤ (encodeVBI n).length := by
  intro k
  induction k with
  | zero =>
    intro n _
    have := encodeVBI_ne_nil n
    cases hb : encodeVBI n with
    | nil => exact absurd hb this
    | cons d ds => simp [hb]
  | succ k ih =>
    intro n hn
    have h128 : 128 ≤ n := by
      calc 128 = 128 ^ 1 := by norm_num
      _ ≤ 128 ^ (k + 1) := Nat.pow_le_pow_right (by norm_num) (by omega)
      _ ≤ n := hn
    rw [encodeVBI_of_ge h128]
    have hdivge : 128 ^ k ≤ n / 128 := by
      rw [Nat.le_div_iff_mul_le (by norm_num)]
      calc 128 ^ k * 128 = 128 ^ (k + 1) := (pow_succ 128 k).symm
      _ ≤ n := hn
    have := ih (n / 128) hdivge
    simp
    omega

/- ### The emitted bytes are the spec's digit sequence -/

theorem base128Digits_ne_nil (v : Nat) : base128Digits v ≠ [] := by
  rw [base128Digits]
  by_cases h : v < 128 <;> simp [h]

theorem withContinuationBits_length : ∀ l : List Nat, (withContinuationBits l).length = l.length
  | [] => rfl
  | [_] => rfl
  | d :: d' :: ds => by
    rw [withContinuationBits]
    simp [withContinuationBits_length (d' :: ds)]

theorem encodeVBI_eq_spec (v : Nat) : encodeVBI v = specVbiEncoding v := by
  unfold specVbiEncoding
  induction v using Nat.strong_induction_on with
  | _ n ih =>
    by_cases h : n < 128
    · rw [encodeVBI_of_lt h, base128Digits]
      simp [h, withContinuationBits, Nat.mod_eq_of_lt h]
    · rw [encodeVBI_of_ge (by omega), base128Digits]
      simp only [h, dite_false, dif_neg (by omega : ¬ n < 128)]
      obtain ⟨d, ds, hds⟩ : ∃ d ds, base128Digits (n / 128) = d :: ds := by
        cases hb : base128Digits (n / 128) with
        | nil => exact absurd hb (base128Digits_ne_nil _)
        | cons d ds => exact ⟨d, ds, rfl⟩
      rw [hds, withContinuationBits, ← hds, ih (n / 128) (Nat.div_lt_self (by omega) (by omega))]

/- ### Decoding the canonical encoding of an in-range value -/

theorem read_vbi_encode (ε : Type) (n : Nat) (hn : n ≤ 268435455) (err : Option ε) :
    read_variable_byte_integer (⟨encodeVBI n, err⟩ : Reader ε) = Except.ok (n, ⟨[], err⟩) := by
  have h := read_vbi_loop_encode (ε := ε) n 0 0 [] err (by omega) (by norm_num; omega)
  simpa [read_variable_byte_integer] using h

/- ### PacketType conversions -/

theorem PacketType.from_bits_to_bits (t : PacketType) : PacketType.from_bits t.to_bits = t := by
  cases t <;> rfl

theorem PacketType.to_bits_from_bits (x : Nat) :
    (PacketType.from_bits x).to_bits = Nat.land x 15 := by
  have h : Nat.land x 15 < 16 := Nat.lt_succ_of_le Nat.and_le_right
  unfold PacketType.from_bits
  generalize hm : Nat.land x 15 = m at h ⊢
  interval_cases m <;> rfl

theorem PacketType.from_bits_land (b : Nat) :
    PacketType.from_bits (Nat.land b 15) = PacketType.from_bits b := by
  unfold PacketType.from_bits
  have h : Nat.land b 15 ≤ 15 := Nat.and_le_right
  rw [land15_small _ (by omega)]

set_option maxRecDepth 16384 in
theorem control_byte_roundtrip :
    ∀ b < 256, Nat.lor (Nat.shiftLeft (Nat.land (Nat.shiftRight b 4) 15) 4)
      (Nat.land (Nat.land b 15) 15) = b := by decide

/- ### FixedHeader codec helpers -/

theorem fh_read_cons (ε : Type) (b : Nat) (rest : List Nat) (err : Option ε) :
    FixedHeader.read (⟨b :: rest, err⟩ : Reader ε) =
      match read_variable_byte_integer (⟨rest, err⟩ : Reader ε) with
      | Except.error e => Except.error e
      | Except.ok (len, r') =>
          Except.ok (⟨PacketType.from_bits (Nat.shiftRight b 4), Nat.land b 15, len⟩, r') := by
  simp [FixedHeader.read, read_u8]

theorem fh_read_nil (ε : Type) (err : Option ε) :
    FixedHeader.read (⟨[], err⟩ : Reader ε) =
      Except.error (Error.ofReadExactError (Reader.endError err)) := by
  simp [FixedHeader.read, read_u8]

set_option maxRecDepth 8192 in
theorem fh_read_61_127 (ε : Type) :
    FixedHeader.read (⟨[61, 127], none⟩ : Reader ε) =
      Except.ok (⟨PacketType.Publish, 13, 127⟩, ⟨[], none⟩) := rfl

theorem fh_write_61_127 (ε : Type) :
    FixedHeader.write ⟨PacketType.Publish, 13, 127⟩ (listWriter ε) [] =
      Except.ok [61, 127] := by
  have h1 : write_variable_byte_integer 127 (listWriter ε) [61] = Except.ok [61, 127] := by
    rw [write_vbi_listWriter, encodeVBI_of_lt (by norm_num)]
    rfl
  simp [FixedHeader.write, write_u8, listWriter, PacketType.to_bits]
  exact h1

theorem fh_write_listWriter (ε : Type) (h : FixedHeader) :
    FixedHeader.write h (listWriter ε) [] =
      Except.ok (Nat.lor (Nat.shiftLeft h.type_.to_bits 4) (Nat.land h.flags 15) ::
        encodeVBI h.remaining_length) := by
  have hv := write_vbi_listWriter ε h.remaining_length
    [Nat.lor (Nat.shiftLeft h.type_.to_bits 4) (Nat.land h.flags 15)]
  simp only [listWriter] at hv
  simp [FixedHeader.write, write_u8, listWriter]
  simpa using hv

/- ### Write failures carry only the channel's native error -/

theorem writeAllMapped_err (ε σ : Type) (ch : WriteChannel σ ε) (bs : List Nat) (s : σ)
    (er : Error ε)
    (h : (match ch.write_all bs s with
          | Except.ok s' => Except.ok s'
          | Except.error e => Except.error (Error.NetworkError e)) = Except.error er) :
    ∃ e, er = Error.NetworkError e := by
  rcases hw : ch.write_all bs s with e | s' <;> rw [hw] at h <;> simp at h
  exact ⟨e, h.symm⟩

theorem wvbi_err_only (ε σ : Type) (ch : WriteChannel σ ε) :
    ∀ num s er, write_variable_byte_integer num ch s = Except.error er →
      ∃ e, er = Error.NetworkError e := by
  intro num
  induction num using Nat.strong_induction_on with
  | _ n ih =>
    intro s er h
    rw [write_variable_byte_integer] at h
    rcases hw : ch.write_all [if 0 < n / 128 then n % 128 + 128 else n % 128] s with e | s'
    · rw [hw] at h
      simp at h
      exact ⟨e, h.symm⟩
    · rw [hw] at h
      simp at h
      by_cases h0 : n / 128 = 0
      · simp [h0] at h
      · simp [h0] at h
        exact ih (n / 128) (Nat.div_lt_self (by omega) (by omega)) s' er h

/- ## Claim theorems -/

/-- C1: for every value v in [0, 268435455], writing v with
`write_variable_byte_integer` and then reading the produced bytes with
`read_variable_byte_integer` succeeds and returns v. -/
theorem vbi_roundtrip (ε : Type) (v : Nat) (hv : v ≤ 268435455) (err : Option ε) :
    write_variable_byte_integer v (listWriter ε) [] = Except.ok (encodeVBI v) ∧
    read_variable_byte_integer (⟨encodeVBI v, err⟩ : Reader ε) =
      Except.ok (v, ⟨[], err⟩) :=
  ⟨by simpa using write_vbi_listWriter ε v [], read_vbi_encode ε v hv err⟩

theorem vbi_roundtrip_witness :
    write_variable_byte_integer 268435455 (listWriter Nat) [] =
      Except.ok (encodeVBI 268435455) ∧
    read_variable_byte_integer (⟨encodeVBI 268435455, none⟩ : Reader Nat) =
      Except.ok (268435455, ⟨[], none⟩) :=
  vbi_roundtrip Nat 268435455 (by norm_num) none

/-- C2: `write_variable_byte_integer` emits exactly the spec's digit
sequence — minimal base-128 digits, least significant first, continuation
bit on every byte but the last — with 1 byte (equal to v) for v in
[0, 127], 2 bytes for [128, 16383], 3 for [16384, 2097151], 4 for
[2097152, 268435455]. -/
theorem write_vbi_digits (ε : Type) (v : Nat) :
    write_variable_byte_integer v (listWriter ε) [] = Except.ok (specVbiEncoding v) ∧
    (v ≤ 127 → specVbiEncoding v = [v]) ∧
    (128 ≤ v ∧ v ≤ 16383 → (specVbiEncoding v).length = 2) ∧
    (16384 ≤ v ∧ v ≤ 2097151 → (specVbiEncoding v).length = 3) ∧
    (2097152 ≤ v ∧ v ≤ 268435455 → (specVbiEncoding v).length = 4) := by
  have hspec := encodeVBI_eq_spec v
  refine ⟨by rw [← hspec]; simpa using write_vbi_listWriter ε v [], ?_, ?_, ?_, ?_⟩
  · intro h
    rw [← hspec, encodeVBI_of_lt (by omega)]
  · rintro ⟨h1, h2⟩
    have hle := encodeVBI_length_le 1 v (by norm_num; omega)
    have hge := encodeVBI_length_ge 1 v (by norm_num; omega)
    rw [← hspec]
    omega
  · rintro ⟨h1, h2⟩
    have hle := encodeVBI_length_le 2 v (by norm_num; omega)
    have hge := encodeVBI_length_ge 2 v (by norm_num; omega)
    rw [← hspec]
    omega
  · rintro ⟨h1, h2⟩
    have hle := encodeVBI_length_le 3 v (by norm_num; omega)
    have hge := encodeVBI_length_ge 3 v (by norm_num; omega)
    rw [← hspec]
    omega

theorem write_vbi_digits_witness :
    write_variable_byte_integer 300 (listWriter Nat) [] =
      Except.ok (specVbiEncoding 300) ∧
    (specVbiEncoding 300).length = 2 :=
  ⟨(write_vbi_digits Nat 300).1,
   (write_vbi_digits Nat 300).2.2.1 ⟨by norm_num, by norm_num⟩⟩

/-- C3: for every input stream whose first 4 bytes all have the
continuation bit set, `read_variable_byte_integer` fails with
`MalformedPacketError` regardless of the numeric content of those bytes,
and — since the result is the same for every continuation `rest` of the
stream and every channel state `err` beyond the 4th byte — without
consuming any 5th byte. -/
theorem read_vbi_four_continuation_malformed (ε : Type) (b0 b1 b2 b3 : Nat)
    (rest : List Nat) (err : Option ε)
    (h0 : Nat.land b0 128 ≠ 0) (h1 : Nat.land b1 128 ≠ 0)
    (h2 : Nat.land b2 128 ≠ 0) (h3 : Nat.land b3 128 ≠ 0) :
    read_variable_byte_integer (⟨b0 :: b1 :: b2 :: b3 :: rest, err⟩ : Reader ε) =
      Except.error Error.MalformedPacketError :=
  read_vbi_loop_four_cont b0 b1 b2 b3 rest err h0 h1 h2 h3

theorem read_vbi_four_continuation_malformed_witness :
    read_variable_byte_integer (⟨[255, 255, 255, 255, 7], some 3⟩ : Reader Nat) =
      Except.error Error.MalformedPacketError :=
  read_vbi_four_continuation_malformed Nat 255 255 255 255 [7] (some 3)
    (by decide) (by decide) (by decide) (by decide)

/-- C7: `PacketType::from_bits` and `PacketType::to_bits` are mutual
inverses — `from_bits (to_bits t) = t` for each of the 16 variants, and
`to_bits (from_bits b) = b & 0x0F` for every input — and `from_bits`
ignores all bits above the low nibble. -/
theorem packetType_bits_inverse :
    (∀ t : PacketType, PacketType.from_bits t.to_bits = t) ∧
    (∀ b : Nat, (PacketType.from_bits b).to_bits = Nat.land b 15) ∧
    (∀ b : Nat, PacketType.from_bits b = PacketType.from_bits (Nat.land b 15)) :=
  ⟨PacketType.from_bits_to_bits, PacketType.to_bits_from_bits,
   fun b => (PacketType.from_bits_land b).symm⟩

/-- C8: the write primitives fail only with `NetworkError` carrying the
channel's native write error, never with `MalformedPacketError`, over any
channel, state and input value. -/
theorem write_primitives_only_network_errors (ε σ : Type) (ch : WriteChannel σ ε)
    (s : σ) (num : Nat) :
    (∀ er, write_u8 num ch s = Except.error er → ∃ e, er = Error.NetworkError e) ∧
    (∀ er, write_u16 num ch s = Except.error er → ∃ e, er = Error.NetworkError e) ∧
    (∀ er, write_u32 num ch s = Except.error er → ∃ e, er = Error.NetworkError e) ∧
    (∀ er, write_variable_byte_integer num ch s = Except.error er →
      ∃ e, er = Error.NetworkError e) :=
  by
  refine ⟨?_, ?_, ?_, fun er h => wvbi_err_only ε σ ch num s er h⟩
  · intro er h
    unfold write_u8 at h
    rcases hw : ch.write_all [num] s with e | s' <;> rw [hw] at h <;> simp at h
    exact ⟨e, h.symm⟩
  · intro er h
    unfold write_u16 at h
    rcases hw : ch.write_all [num / 256 % 256, num % 256] s with e | s' <;>
      rw [hw] at h <;> simp at h
    exact ⟨e, h.symm⟩
  · intro er h
    unfold write_u32 at h
    rcases hw : ch.write_all
        [num / 16777216 % 256, num / 65536 % 256, num / 256 % 256, num % 256] s with e | s' <;>
      rw [hw] at h <;> simp at h
    exact ⟨e, h.symm⟩

theorem write_primitives_only_network_errors_witness :
    write_u8 7 (⟨fun _ _ => Except.error 5⟩ : WriteChannel Unit Nat) () =
      Except.error (Error.NetworkError 5) ∧
    ∃ e, (Error.NetworkError 5 : Error Nat) = Error.NetworkError e :=
  ⟨rfl, (write_primitives_only_network_errors Nat Unit
    ⟨fun _ _ => Except.error 5⟩ () 7).1 (Error.NetworkError 5) rfl⟩

/-- C4: every read primitive fails with `MalformedPacketError` when the
channel reports an unexpected end-of-data before the required bytes are
delivered (including mid-sequence for the variable byte integer), and with
`NetworkError` carrying the channel's native error for any other
channel-level read failure. -/
theorem read_primitives_error_taxonomy (ε : Type) (bs : List Nat) (err : Option ε) :
    Error.ofReadExactError (Reader.endError (none : Option ε)) =
      Error.MalformedPacketError ∧
    (∀ e : ε, Error.ofReadExactError (Reader.endError (some e)) =
      Error.NetworkError e) ∧
    (bs.length < 1 → read_u8 (⟨bs, err⟩ : Reader ε) =
      Except.error (Error.ofReadExactError (Reader.endError err))) ∧
    (bs.length < 2 → read_u16 (⟨bs, err⟩ : Reader ε) =
      Except.error (Error.ofReadExactError (Reader.endError err))) ∧
    (bs.length < 4 → read_u32 (⟨bs, err⟩ : Reader ε) =
      Except.error (Error.ofReadExactError (Reader.endError err))) ∧
    (bs.length ≤ 3 → (∀ b ∈ bs, Nat.land b 128 ≠ 0) →
      read_variable_byte_integer (⟨bs, err⟩ : Reader ε) =
        Except.error (Error.ofReadExactError (Reader.endError err))) := by
  refine ⟨rfl, fun e => rfl, ?_, ?_, ?_, ?_⟩
  · intro h
    rcases bs with _ | ⟨a, tl⟩
    · simp [read_u8]
    · simp at h
  · intro h
    rcases bs with _ | ⟨a, _ | ⟨b, tl⟩⟩
    · simp [read_u16]
    · simp [read_u16]
    · simp only [List.length_cons] at h
      omega
  · intro h
    rcases bs with _ | ⟨a, _ | ⟨b, _ | ⟨c, _ | ⟨d, tl⟩⟩⟩⟩
    · simp [read_u32]
    · simp [read_u32]
    · simp [read_u32]
    · simp [read_u32]
    · simp only [List.length_cons] at h
      omega
  · intro hlen hcont
    rcases bs with _ | ⟨a, _ | ⟨b, _ | ⟨c, _ | ⟨d, tl⟩⟩⟩⟩
    · simp [read_variable_byte_integer, read_vbi_loop]
    · have ha := hcont a (by simp)
      norm_num [read_variable_byte_integer, read_vbi_loop, ha]
    · have ha := hcont a (by simp)
      have hb := hcont b (by simp)
      norm_num [read_variable_byte_integer, read_vbi_loop, ha, hb]
    · have ha := hcont a (by simp)
      have hb := hcont b (by simp)
      have hc := hcont c (by simp)
      norm_num [read_variable_byte_integer, read_vbi_loop, ha, hb, hc]
    · simp only [List.length_cons] at hlen
      omega

theorem read_primitives_error_taxonomy_witness :
    read_u8 (⟨[], none⟩ : Reader Nat) = Except.error Error.MalformedPacketError ∧
    read_u16 (⟨[18], some 9⟩ : Reader Nat) = Except.error (Error.NetworkError 9) ∧
    read_u32 (⟨[1, 2, 3], none⟩ : Reader Nat) =
      Except.error Error.MalformedPacketError ∧
    read_variable_byte_integer (⟨[128, 129], none⟩ : Reader Nat) =
      Except.error Error.MalformedPacketError :=
  ⟨(read_primitives_error_taxonomy Nat [] none).2.2.1 (by norm_num),
   (read_primitives_error_taxonomy Nat [18] (some 9)).2.2.2.1 (by norm_num),
   (read_primitives_error_taxonomy Nat [1, 2, 3] none).2.2.2.2.1 (by norm_num),
   (read_primitives_error_taxonomy Nat [128, 129] none).2.2.2.2.2 (by norm_num)
     (by decide)⟩

/-- C5: `FixedHeader::read` reads one control byte, maps its upper 4 bits
to a `PacketType` through the total `from_bits` mapping (no byte value
yields an unknown-type error), stores the lower 4 bits verbatim as flags,
then reads the remaining length as a variable byte integer, propagating
failures of the two sub-readers unchanged; over the bytes
`[0b00111101, 0x7F]` it yields packet type `Publish`, flags `0b1101` = 13
and remaining length 127. -/
theorem fixedHeader_read_correct (ε : Type) (b : Nat) (rest : List Nat)
    (err : Option ε) :
    (FixedHeader.read (⟨b :: rest, err⟩ : Reader ε) =
      match read_variable_byte_integer (⟨rest, err⟩ : Reader ε) with
      | Except.error e => Except.error e
      | Except.ok (len, r') =>
          Except.ok (⟨PacketType.from_bits (Nat.shiftRight b 4),
            Nat.land b 15, len⟩, r')) ∧
    (FixedHeader.read (⟨[], err⟩ : Reader ε) =
      Except.error (Error.ofReadExactError (Reader.endError err))) ∧
    FixedHeader.read (⟨[61, 127], none⟩ : Reader ε) =
      Except.ok (⟨PacketType.Publish, 13, 127⟩, ⟨[], none⟩) :=
  ⟨fh_read_cons ε b rest err, fh_read_nil ε err, fh_read_61_127 ε⟩

/-- C6: `FixedHeader::write` emits the control byte
`(packet_type_bits << 4) | (flags & 0x0F)` followed by the remaining
length as a variable byte integer, propagating write failures unchanged;
a header read from a control byte and a canonical in-range length encoding
writes back exactly the bytes it was read from, e.g. the header of
`[0b00111101, 0x7F]` writes back those two bytes. -/
theorem fixedHeader_write_correct (ε : Type) (h : FixedHeader) (b n : Nat)
    (err : Option ε) (hb : b < 256) (hn : n ≤ 268435455) :
    (∀ (σ : Type) (ch : WriteChannel σ ε) (s : σ) (e : Error ε),
      write_u8 (Nat.lor (Nat.shiftLeft h.type_.to_bits 4)
          (Nat.land h.flags 15)) ch s = Except.error e →
        FixedHeader.write h ch s = Except.error e) ∧
    (∀ (σ : Type) (ch : WriteChannel σ ε) (s s' : σ),
      write_u8 (Nat.lor (Nat.shiftLeft h.type_.to_bits 4)
          (Nat.land h.flags 15)) ch s = Except.ok s' →
        FixedHeader.write h ch s =
          write_variable_byte_integer h.remaining_length ch s') ∧
    (FixedHeader.write h (listWriter ε) [] =
      Except.ok (Nat.lor (Nat.shiftLeft h.type_.to_bits 4) (Nat.land h.flags 15) ::
        encodeVBI h.remaining_length)) ∧
    (∀ hd r', FixedHeader.read (⟨b :: encodeVBI n, err⟩ : Reader ε) =
        Except.ok (hd, r') →
      FixedHeader.write hd (listWriter ε) [] = Except.ok (b :: encodeVBI n)) ∧
    FixedHeader.write ⟨PacketType.Publish, 13, 127⟩ (listWriter ε) [] =
      Except.ok [61, 127] := by
  refine ⟨?_, ?_, fh_write_listWriter ε h, ?_, fh_write_61_127 ε⟩
  · intro σ ch s e hw8
    simp only [FixedHeader.write]
    rw [hw8]
  · intro σ ch s s' hw8
    simp only [FixedHeader.write]
    rw [hw8]
  · intro hd r' hread
    rw [fh_read_cons, read_vbi_encode ε n hn err] at hread
    simp at hread
    obtain ⟨hhd, -⟩ := hread
    subst hhd
    rw [fh_write_listWriter]
    have hctrl : Nat.lor
        (Nat.shiftLeft (PacketType.from_bits (b >>> 4)).to_bits 4)
        (Nat.land (Nat.land b 15) 15) = b := by
      rw [PacketType.to_bits_from_bits]
      exact control_byte_roundtrip b hb
    simp only [hctrl]

theorem fixedHeader_write_correct_witness :
    FixedHeader.write ⟨PacketType.Publish, 13, 127⟩ (listWriter Nat) [] =
      Except.ok [61, 127] :=
  (fixedHeader_write_correct Nat ⟨PacketType.Connect, 0, 5⟩ 61 127 none
    (by norm_num) (by norm_num)).2.2.2.2

/-- C9: `read_variable_byte_integer` does not enforce canonical minimal
encodings: paddings of an in-range value with zero-digit continuation
bytes, up to 4 bytes total, decode to the value without error; in
particular `[0x80, 0x00]` decodes to 0 although the canonical encoding of
0 is `[0x00]`. -/
theorem read_vbi_accepts_nonminimal (ε : Type) (v : Nat) (hv : v ≤ 127)
    (err : Option ε) :
    read_variable_byte_integer (⟨[v + 128, 0], err⟩ : Reader ε) =
      Except.ok (v, ⟨[], err⟩) ∧
    read_variable_byte_integer (⟨[v + 128, 128, 0], err⟩ : Reader ε) =
      Except.ok (v, ⟨[], err⟩) ∧
    read_variable_byte_integer (⟨[v + 128, 128, 128, 0], err⟩ : Reader ε) =
      Except.ok (v, ⟨[], err⟩) ∧
    read_variable_byte_integer (⟨[128, 0], err⟩ : Reader ε) =
      Except.ok (0, ⟨[], err⟩) ∧
    encodeVBI 0 = [0] := by
  have h1 := land127_add v (by omega)
  have h2 := land128_add v (by omega)
  have z127 : Nat.land 0 127 = 0 := by decide
  have z128 : Nat.land 0 128 = 0 := by decide
  have c127 : Nat.land 128 127 = 0 := by decide
  have c128 : Nat.land 128 128 = 128 := by decide
  refine ⟨?_, ?_, ?_, ?_, encodeVBI_of_lt (by norm_num)⟩ <;>
    norm_num [read_variable_byte_integer, read_vbi_loop, h1, h2, z127, z128,
      c127, c128]

theorem read_vbi_accepts_nonminimal_witness :
    read_variable_byte_integer (⟨[128, 0], none⟩ : Reader Unit) =
      Except.ok (0, ⟨[], none⟩) :=
  (read_vbi_accepts_nonminimal Unit 5 (by norm_num) none).2.2.2.1

/-- C10: `write_variable_byte_integer` terminates for every u32 input,
emitting at most 5 bytes; for inputs above 268435455 it reports no error —
it silently succeeds, emitting exactly 5 bytes whose first four all carry
the continuation bit, a sequence `read_variable_byte_integer` rejects as
`MalformedPacketError`. -/
theorem write_vbi_total_and_overrange (ε : Type) (num : Nat)
    (hnum : num < 4294967296) :
    (∃ bs : List Nat, write_variable_byte_integer num (listWriter ε) [] =
      Except.ok bs ∧ bs.length ≤ 5) ∧
    (268435455 < num → ∀ err : Option ε,
      write_variable_byte_integer num (listWriter ε) [] =
        Except.ok (encodeVBI num) ∧
      (encodeVBI num).length = 5 ∧
      read_variable_byte_integer (⟨encodeVBI num, err⟩ : Reader ε) =
        Except.error Error.MalformedPacketError) := by
  constructor
  · refine ⟨encodeVBI num, by simpa using write_vbi_listWriter ε num [], ?_⟩
    have := encodeVBI_length_le 4 num (by norm_num; omega)
    omega
  · intro hbig err
    refine ⟨by simpa using write_vbi_listWriter ε num [], ?_, ?_⟩
    · have hle := encodeVBI_length_le 4 num (by norm_num; omega)
      have hge := encodeVBI_length_ge 4 num (by norm_num; omega)
      omega
    · have e0 : encodeVBI num = (num % 128 + 128) :: encodeVBI (num / 128) :=
        encodeVBI_of_ge (by omega)
      have e1 : encodeVBI (num / 128) =
          (num / 128 % 128 + 128) :: encodeVBI (num / 128 / 128) :=
        encodeVBI_of_ge (by omega)
      have e2 : encodeVBI (num / 128 / 128) =
          (num / 128 / 128 % 128 + 128) :: encodeVBI (num / 128 / 128 / 128) :=
        encodeVBI_of_ge (by omega)
      have e3 : encodeVBI (num / 128 / 128 / 128) =
          (num / 128 / 128 / 128 % 128 + 128) ::
            encodeVBI (num / 128 / 128 / 128 / 128) :=
        encodeVBI_of_ge (by omega)
      rw [e0, e1, e2, e3]
      refine read_vbi_loop_four_cont _ _ _ _ _ err ?_ ?_ ?_ ?_ <;>
        · rw [land128_add _ (Nat.mod_lt _ (by norm_num))]
          norm_num

theorem write_vbi_total_and_overrange_witness :
    write_variable_byte_integer 268435456 (listWriter Nat) [] =
      Except.ok (encodeVBI 268435456) ∧
    (encodeVBI 268435456).length = 5 ∧
    read_variable_byte_integer (⟨encodeVBI 268435456, none⟩ : Reader Nat) =
      Except.error Error.MalformedPacketError :=
  (write_vbi_total_and_overrange Nat 268435456 (by norm_num)).2 (by norm_num) none
